import Mathlib

/-!
Verification of the prololo matrix-bot against its specification.

Each Rust source function relevant to the checked claims is shallowly
embedded as an executable Lean definition, keeping the source's names
and control flow.  Rust `String`/`&str` values are modelled as Lean
`String` (a list of unicode scalar values); `str::len`, which counts
UTF-8 bytes, is modelled by `byteLen`.  Rust panics (`expect`,
`unwrap`) are modelled with `Except String`.
-/

namespace Prololo

/-! ## src/bot/utils.rs -/

/-- The UTF-8 byte length of a string: the value returned by Rust `str::len`. -/
def byteLen (s : String) : Nat := (s.data.map Char.utf8Size).sum

/-- `shorten_content` from src/bot/utils.rs: if the content is at most 72
bytes long it is returned unchanged, otherwise the first 72 characters are
kept and an ellipsis is appended. -/
def shorten_content (content : String) : String :=
  let max_length := 72
  if byteLen content ≤ max_length then content
  else String.mk (content.data.take max_length) ++ "…"

/-- `shorten_content_length` from src/bot/utils.rs: same as `shorten_content`
with an explicit byte budget. -/
def shorten_content_length (content : String) (max_length : Nat) : String :=
  if byteLen content ≤ max_length then content
  else String.mk (content.data.take max_length) ++ "…"

/-! ## src/bot/message_builder.rs -/

/-- The inline style kinds of the message builder's style stack. -/
inductive Style where
  | bold
  | code
  | span
deriving DecidableEq

/-- The closing tag of a style, `Style::close`. -/
def Style.close : Style → String
  | .bold => "</b>"
  | .code => "</code>"
  | .span => "</span>"

/-- `MessageBuilder`: synchronized plain-text and html accumulators, a stack
of open styles and an optional primary link. -/
structure MessageBuilder where
  html : String := ""
  plain : String := ""
  style_stack : List Style := []
  url : Option String := none
deriving DecidableEq

def MessageBuilder.new : MessageBuilder := {}

/-- The escaping of one character in `write_str`, one entity per match arm;
characters without an arm pass through (`_ => continue`). -/
def escapeChar (c : Char) : String :=
  if c = '>' then "&gt;"
  else if c = '<' then "&lt;"
  else if c = '&' then "&amp;"
  else if c = '\'' then "&#39;"
  else if c = '"' then "&quot;"
  else String.mk [c]

/-- The html-escaped copy of a string built by the `write_str` loop.  The
source copies unescaped runs in chunks (`s[last..i]`); character by
character this is exactly one `escapeChar` per input character. -/
def escapeHtmlChars : List Char → List Char
  | [] => []
  | c :: rest => (escapeChar c).data ++ escapeHtmlChars rest

def escapeHtml (s : String) : String := String.mk (escapeHtmlChars s.data)

/-- `write_str` (the `std::fmt::Write` impl): the plain accumulator receives
the string verbatim, the html accumulator its escaped copy. -/
def MessageBuilder.write_str (b : MessageBuilder) (s : String) : MessageBuilder :=
  { b with plain := b.plain ++ s, html := b.html ++ escapeHtml s }

def MessageBuilder.bold (b : MessageBuilder) : MessageBuilder :=
  { b with html := b.html ++ "<b>", style_stack := Style.bold :: b.style_stack }

def MessageBuilder.code (b : MessageBuilder) : MessageBuilder :=
  { b with html := b.html ++ "<code>", style_stack := Style.code :: b.style_stack }

def MessageBuilder.color (b : MessageBuilder) (color : String) : MessageBuilder :=
  { b with html := b.html ++ "<span style=\"color: " ++ color ++ "\">",
           style_stack := Style.span :: b.style_stack }

/-- `close_last` pops the style stack and closes its tag; on an empty stack
the source panics (`expect("cannot be empty")`), modelled as an error. -/
def MessageBuilder.close_last (b : MessageBuilder) : Except String MessageBuilder :=
  match b.style_stack with
  | [] => .error "cannot be empty"
  | style :: rest => .ok { b with html := b.html ++ style.close, style_stack := rest }

/-- `tag`: a bold bracketed label with an optional leading emoji. -/
def MessageBuilder.tag (b : MessageBuilder) (t : String) (emoji : Option Char) :
    Except String MessageBuilder := do
  let b := b.bold
  let b := b.write_str "["
  let b := match emoji with
    | some e => b.write_str (String.mk [e] ++ " ")
    | none => b
  let b := b.write_str (t ++ "]")
  b.close_last

/-- `link`: plain text receives only the text, html an anchor element. -/
def MessageBuilder.link (b : MessageBuilder) (text href : String) : MessageBuilder :=
  { b with plain := b.plain ++ text,
           html := b.html ++ "<a href=\"" ++ href ++ "\">" ++ text ++ "</a>" }

/-- `main_link`: a `link` that also records the url as the primary link. -/
def MessageBuilder.main_link (b : MessageBuilder) (text href : String) : MessageBuilder :=
  { b.link text href with url := some href }

def SEPARATOR : String := "⋅"

/-- The finished plain/html message pair (`MessageEventContent::text_html`). -/
structure FormattedMessage where
  plain : String
  html : String
deriving DecidableEq

/-- `build`: appends the primary url, if any, to the plain text and returns
the message.  The style stack is not consulted. -/
def MessageBuilder.build (b : MessageBuilder) : FormattedMessage :=
  let plain := match b.url with
    | some url => b.plain ++ " " ++ SEPARATOR ++ " " ++ url
    | none => b.plain
  ⟨plain, b.html⟩

/-- Decoding of the five entities produced by `escapeChar`; any other
character, in particular any `&` not starting one of these entities, passes
through.  This is the html-unescaping the specification's round-trip
property refers to. -/
def unescapeChars : List Char → List Char
  | [] => []
  | c :: rest =>
    if c = '&' then
      if rest.take 3 = ['g', 't', ';'] then '>' :: unescapeChars (rest.drop 3)
      else if rest.take 3 = ['l', 't', ';'] then '<' :: unescapeChars (rest.drop 3)
      else if rest.take 4 = ['a', 'm', 'p', ';'] then '&' :: unescapeChars (rest.drop 4)
      else if rest.take 4 = ['#', '3', '9', ';'] then '\'' :: unescapeChars (rest.drop 4)
      else if rest.take 5 = ['q', 'u', 'o', 't', ';'] then '"' :: unescapeChars (rest.drop 5)
      else c :: unescapeChars rest
    else c :: unescapeChars rest
termination_by l => l.length
decreasing_by
  all_goals simp [List.length_drop]
  all_goals omega

def unescapeHtml (s : String) : String := String.mk (unescapeChars s.data)

/-! ## src/config.rs -/

/-- `RoomConfig`: a matrix room id plus the default flag. -/
structure RoomConfig where
  id : String
  default : Bool
deriving DecidableEq

/-- `Destination`: a room name and the repo-matching regex, modelled by its
match predicate (`Regex::is_match`, an external crate). -/
structure Destination where
  room : String
  regex : String → Bool

/-- `ProloloConfig` (the fields destination resolution reads).  The
`matrix_rooms` HashMap is modelled as an association list. -/
structure ProloloConfig where
  matrix_rooms : List (String × RoomConfig)
  destinations : List Destination

/-- `HashMap::get` on the room map. -/
def ProloloConfig.rooms_get (cfg : ProloloConfig) (name : String) : Option RoomConfig :=
  (cfg.matrix_rooms.find? (fun p => p.1 = name)).map Prod.snd

/-- `default_room`: the first room carrying the default flag, or an error. -/
def ProloloConfig.default_room (cfg : ProloloConfig) : Except String String :=
  match (cfg.matrix_rooms.map Prod.snd).find? (fun room => room.default) with
  | some room => .ok room.id
  | none => .error "no default room provided!"

/-- `find_room_for`: the room of the first destination whose regex matches
the repo, the default room when none matches, an error when the matched
destination names an unknown room. -/
def ProloloConfig.find_room_for (cfg : ProloloConfig) (repo : String) :
    Except String String :=
  match cfg.destinations.find? (fun dest => dest.regex repo) with
  | some dest =>
    match cfg.rooms_get dest.room with
    | some room => .ok room.id
    | none => .error ("destination points to unknown room " ++ dest.room)
  | none => cfg.default_room

/-- The caller's resolution step (bot.rs `handle_event`): an event without a
repo key goes to the default room, one with a key through `find_room_for`. -/
def ProloloConfig.resolve_room (cfg : ProloloConfig) (repo : Option String) :
    Except String String :=
  match repo with
  | some repo => cfg.find_room_for repo
  | none => cfg.default_room

/-- A concrete configuration: two rooms (the second is the default), one
destination routing `acme/widgets` to the kiosk room and one pointing at a
room name absent from the room map. -/
def wcfg : ProloloConfig :=
  { matrix_rooms := [("kiosk", ⟨"!kiosk", false⟩), ("main", ⟨"!main", true⟩)],
    destinations := [⟨"kiosk", fun repo => repo = "acme/widgets"⟩,
                     ⟨"missing", fun repo => repo = "acme/gadgets"⟩] }

/-! ## src/bot/handlers/autojoin.rs -/

/-- The matrix-sdk `Room` enum as seen by the autojoin handler. -/
inductive MatrixRoom where
  | invited (room_id : String)
  | joinedRoom (room_id : String)
  | leftRoom (room_id : String)
deriving DecidableEq

/-- What one run of `autojoin_authorized_rooms` does with an invitation. -/
inductive AutojoinOutcome where
  | notForMe
  | notInvited
  | declined (room_id : String)
  | joined (room_id : String) (attempts : Nat) (sleeps : List Nat)
  | abandoned (room_id : String) (attempts : Nat) (sleeps : List Nat)
deriving DecidableEq

/-- The trace of the `accept_invitation` retry loop: whether it ended in a
successful join, the number of `accept_invitation` calls made, and the list
of back-off sleeps performed, in order. -/
structure JoinTrace where
  joinedOk : Bool
  attempts : Nat
  sleeps : List Nat
deriving DecidableEq

/-- The `while let Err … accept_invitation` loop: `accept n` tells whether
the n-th accept attempt succeeds; on failure the loop sleeps `delay`
seconds, doubles the delay and gives up once the doubled delay exceeds
3600. -/
def accept_retry_loop (accept : Nat → Bool) (attempt delay : Nat)
    (hdelay : 0 < delay) : JoinTrace :=
  if accept attempt then ⟨true, 1, []⟩
  else if h2 : 3600 < delay * 2 then ⟨false, 1, [delay]⟩
  else
    let r := accept_retry_loop accept (attempt + 1) (delay * 2) (by omega)
    ⟨r.joinedOk, r.attempts + 1, delay :: r.sleeps⟩
termination_by 3601 - delay
decreasing_by omega

/-- The retry loop as entered by the handler: `let mut delay = 2`. -/
def accept_retry (accept : Nat → Bool) : JoinTrace :=
  accept_retry_loop accept 0 2 (by omega)

/-- `autojoin_authorized_rooms`: ignore membership events for other users
and rooms the bot is not invited to; decline the invitation when the room
id is contained in `authorized_rooms` (the source's condition, see C1);
otherwise run the accept retry loop starting with a 2-second delay. -/
def autojoin_authorized_rooms (state_key user_id : String) (room : MatrixRoom)
    (authorized_rooms : List String) (accept : Nat → Bool) : AutojoinOutcome :=
  if state_key ≠ user_id then .notForMe
  else match room with
    | .invited room_id =>
      if authorized_rooms.contains room_id then .declined room_id
      else
        let r := accept_retry accept
        if r.joinedOk then .joined room_id r.attempts r.sleeps
        else .abandoned room_id r.attempts r.sleeps
    | _ => .notInvited

/-! ## src/webhooks/github.rs and src/webhooks/github/events/types.rs -/

/-- HTTP statuses returned by the webhook route. -/
inductive Status where
  | ok
  | badRequest
deriving DecidableEq

/-- `GitHubEventType`: the deserialization target of the `X-GitHub-Event`
header, one variant per recognized event plus `Unknown`. -/
inductive GitHubEventType where
  | commitComment
  | create
  | fork
  | issueComment
  | issues
  | membership
  | organization
  | ping
  | pullRequest
  | pullRequestReview
  | pullRequestReviewComment
  | push
  | repository
  | unknown
deriving DecidableEq

/-- The snake_case names serde recognizes for the real event variants. -/
def recognized_event_names : List String :=
  ["commit_comment", "create", "fork", "issue_comment", "issues",
   "membership", "organization", "ping", "pull_request",
   "pull_request_review", "pull_request_review_comment", "push", "repository"]

/-- The `FromRequest` impl for `GitHubEventType`: the header value is
deserialized by serde (snake_case variant names); any other value falls
back to `Unknown` instead of failing the request.  (The string "unknown"
itself deserializes to `Unknown` directly; every other unrecognized string
reaches the fallback — both give `Unknown`.) -/
def parse_event_type (s : String) : GitHubEventType :=
  if s = "commit_comment" then .commitComment
  else if s = "create" then .create
  else if s = "fork" then .fork
  else if s = "issue_comment" then .issueComment
  else if s = "issues" then .issues
  else if s = "membership" then .membership
  else if s = "organization" then .organization
  else if s = "ping" then .ping
  else if s = "pull_request" then .pullRequest
  else if s = "pull_request_review" then .pullRequestReview
  else if s = "pull_request_review_comment" then .pullRequestReviewComment
  else if s = "push" then .push
  else if s = "repository" then .repository
  else .unknown

/-- `GitHubEventType::parse_payload`: `Unknown` bails with an error; every
real variant parses the JSON payload with serde, modelled by the `deser`
oracle (`serde_json::from_str`, an external crate), whose failure is also
an error. -/
def parse_payload {Ev : Type} (t : GitHubEventType)
    (deser : GitHubEventType → Option Ev) : Except String Ev :=
  match t with
  | .unknown => .error "unknown event type"
  | t =>
    match deser t with
    | some ev => .ok ev
    | none => .error "invalid payload"

/-- The `github_webhook` route body, entered once the payload signature was
verified: parse the event type header, parse the payload; on error answer
BadRequest and enqueue nothing, otherwise send the event on the channel
(the returned `Option Ev`) and answer Ok. -/
def github_webhook {Ev : Type} (event_name : String)
    (deser : GitHubEventType → Option Ev) : Status × Option Ev :=
  match parse_payload (parse_event_type event_name) deser with
  | .ok event => (Status.ok, some event)
  | .error _ => (Status.badRequest, none)

/-! ## src/webhooks/github/events.rs — payload structures -/

structure GitHubUser where
  login : String
  id : Nat
  html_url : String
deriving DecidableEq

structure Repository where
  name : String
  full_name : String
  html_url : String
deriving DecidableEq

structure Milestone where
  title : String
deriving DecidableEq

structure PullRequestLinks where
  html_url : String
deriving DecidableEq

structure Issue where
  number : Nat
  html_url : String
  title : String
  milestone : Option Milestone
  pull_request : Option PullRequestLinks
deriving DecidableEq

/-- The `Display` impl for `Issue`: `#{number} ({shortened title})`. -/
def Issue.display (i : Issue) : String :=
  "#" ++ toString i.number ++ " (" ++ shorten_content i.title ++ ")"

structure Comment where
  html_url : String
  body : String
  commit_id : Option String
  pull_request_review_id : Option Nat
  path : Option String
  position : Option Nat
deriving DecidableEq

structure Team where
  name : String
  id : Nat
  description : String
  privacy : String
  permission : String
  html_url : String
deriving DecidableEq

structure PrRef where
  ref : String
deriving DecidableEq

structure PullRequest where
  number : Nat
  html_url : String
  title : String
  user : GitHubUser
  requested_reviewers : List GitHubUser
  base : PrRef
  head : PrRef
  merged : Option Bool
deriving DecidableEq

/-- The `Display` impl for `PullRequest`. -/
def PullRequest.display (pr : PullRequest) : String :=
  "PR #" ++ toString pr.number ++ ": " ++ shorten_content pr.title
    ++ " by " ++ pr.user.login

/-- The `from` field of an issue change (field renamed, `from` is reserved
in Lean; the handlers only test presence). -/
structure IssueChangesFrom where
  fromValue : String
deriving DecidableEq

structure IssueChanges where
  title : Option IssueChangesFrom
  body : Option IssueChangesFrom
deriving DecidableEq

structure IssuesEvent where
  repository : Repository
  sender : GitHubUser
  issue : Issue
  changes : Option IssueChanges
  assignee : Option GitHubUser
  action : String
deriving DecidableEq

structure MembershipEvent where
  action : String
  member : GitHubUser
  team : Team
  sender : GitHubUser
deriving DecidableEq

structure PullRequestReviewCommentEvent where
  repository : Repository
  sender : GitHubUser
  pull_request : PullRequest
  action : String
  comment : Comment
deriving DecidableEq

/-! ## src/bot/github.rs — handlers -/

/-- Modelled from the spec: the emoji module (src/bot/emoji.rs) is not
among the provided sources; the constants used by the handlers below are
fixed by the expected plain-text outputs asserted in bot/github.rs's unit
tests. -/
def WRENCH : Char := '🔧'

def SPEECH_BALLOON : Char := '💬'

def PEOPLE : Char := '🧑'

/-- A handler's answer: the built message and the optional repo key used as
destination hint. -/
structure Response where
  message : MessageBuilder
  repo : Option String
deriving DecidableEq

/-- `handle_issues`.  The branch on the action either returns early
(`pure none`), panics (`Except.error`), or extends the message; afterwards
the issue link is appended as primary link and the response returned. -/
def handle_issues (event : IssuesEvent) : Except String (Option Response) := do
  let action := event.action
  let issue := event.issue
  let message := MessageBuilder.new
  let message ← message.tag event.repository.name (some WRENCH)
  let message := message.write_str (" " ++ event.sender.login)
  let branch : Except String (Option MessageBuilder) :=
    if action = "assigned" ∨ action = "unassigned" then
      match event.assignee with
      | none => .error "assigned action should always have an assignee"
      | some assignee =>
        let message :=
          if assignee.id = event.sender.id then
            message.write_str (" self-" ++ action)
          else
            message.write_str (" " ++ action ++ " " ++ assignee.login)
        .ok (some (message.write_str " to "))
    else if action = "labeled" ∨ action = "unlabeled" then
      .ok none
    else if action ∈ ["opened", "deleted", "pinned", "unpinned", "reopened",
        "closed", "locked", "unlocked", "transferred"] then
      .ok (some (message.write_str (" " ++ action ++ " issue ")))
    else if action = "edited" then
      match event.changes with
      | none => .error "edited issue without changes shouldn't happen"
      | some changes =>
        let message := message.write_str " edited"
        if changes.title.isSome ∧ changes.body.isSome then
          .ok (some (message.write_str " title and body of issue "))
        else if changes.title.isSome then
          .ok (some (message.write_str " title of issue "))
        else if changes.body.isSome then
          .ok (some (message.write_str " body of issue "))
        else
          .ok none
    else if action = "milestoned" then
      match issue.milestone with
      | none => .error "milestoned issue should have a milestone"
      | some milestone =>
        .ok (some (message.write_str
          (" added milestone " ++ milestone.title ++ " to ")))
    else if action = "demilestoned" then
      .ok (some (message.write_str " removed the milestone from "))
    else
      .ok none
  match ← branch with
  | none => pure none
  | some message =>
    let message := message.main_link issue.display issue.html_url
    pure (some ⟨message, some event.repository.full_name⟩)

/-- `handle_membership`.  The team tag is written first; a team whose
privacy is "secret" produces no message at all; otherwise only the
"added"/"removed" actions produce one. -/
def handle_membership (event : MembershipEvent) :
    Except String (Option Response) := do
  let action := event.action
  let message := MessageBuilder.new
  let message ← message.tag event.team.name (some PEOPLE)
  if event.team.privacy = "secret" then
    pure none
  else
    let preposition? : Option String :=
      if action = "added" then some "to"
      else if action = "removed" then some "from"
      else none
    match preposition? with
    | none => pure none
    | some preposition =>
      let message := message.write_str
        (" " ++ event.sender.login ++ " " ++ action ++ " ")
      let message := message.link event.member.login event.member.html_url
      let message := message.write_str (" " ++ preposition ++ " the team")
      pure (some ⟨message, none⟩)

/-- `handle_pull_request_review_comment`.  An inline comment that belongs
to a pending review (`pull_request_review_id` present) is suppressed before
anything is built; otherwise only "created" produces a message. -/
def handle_pull_request_review_comment (event : PullRequestReviewCommentEvent) :
    Except String (Option Response) := do
  let action := event.action
  let comment := event.comment
  let pr := event.pull_request
  if comment.pull_request_review_id.isSome then
    pure none
  else
    let message := MessageBuilder.new
    let message ← message.tag event.repository.name (some SPEECH_BALLOON)
    let message := message.write_str (" " ++ event.sender.login ++ " ")
    if action = "created" then
      let message := message.main_link "commented" comment.html_url
      let message := message.write_str " on "
      let message := message.link pr.display pr.html_url
      let message ← match comment.path with
        | some path =>
          match comment.position with
          | some position =>
            pure (message.write_str
              (" on file " ++ path ++ " @ " ++ toString position))
          | none => Except.error "comment on file without specific position"
        | none => pure message
      pure (some ⟨message, some event.repository.full_name⟩)
    else if action = "edited" ∨ action = "deleted" then
      pure none
    else
      pure none

def wUser : GitHubUser := ⟨"alice", 1, "https://example.org/alice"⟩

def wRepo : Repository := ⟨"widgets", "acme/widgets", "https://example.org/r"⟩

/-! ## src/webhooks/github/signing.rs

`validate_signature` computes HMAC-SHA-256 of the body with the configured
secret (via the `hmac`/`sha2` crates), strips the mandatory "sha256="
prefix from the declared signature, hex-decodes the remainder and compares
the bytes with the computed tag.  The crates' algorithms are implemented
below over byte lists (`List Nat`, each element one byte); 32-bit words are
naturals reduced by `w32`. -/
def w32 (x : Nat) : Nat := x % 4294967296

def rotr32 (n x : Nat) : Nat := w32 ((x >>> n) ||| (x <<< (32 - n)))

def ch32 (x y z : Nat) : Nat := (x &&& y) ^^^ ((x ^^^ 4294967295) &&& z)

def maj32 (x y z : Nat) : Nat := (x &&& y) ^^^ (x &&& z) ^^^ (y &&& z)

def bsig0 (x : Nat) : Nat := rotr32 2 x ^^^ rotr32 13 x ^^^ rotr32 22 x

def bsig1 (x : Nat) : Nat := rotr32 6 x ^^^ rotr32 11 x ^^^ rotr32 25 x

def ssig0 (x : Nat) : Nat := rotr32 7 x ^^^ rotr32 18 x ^^^ (x >>> 3)

def ssig1 (x : Nat) : Nat := rotr32 17 x ^^^ rotr32 19 x ^^^ (x >>> 10)

def sha256K : List Nat :=
  [1116352408, 1899447441, 3049323471, 3921009573, 961987163,
   1508970993, 2453635748, 2870763221, 3624381080, 310598401,
   607225278, 1426881987, 1925078388, 2162078206, 2614888103,
   3248222580, 3835390401, 4022224774, 264347078, 604807628,
   770255983, 1249150122, 1555081692, 1996064986, 2554220882,
   2821834349, 2952996808, 3210313671, 3336571891, 3584528711,
   113926993, 338241895, 666307205, 773529912, 1294757372,
   1396182291, 1695183700, 1986661051, 2177026350, 2456956037,
   2730485921, 2820302411, 3259730800, 3345764771, 3516065817,
   3600352804, 4094571909, 275423344, 430227734, 506948616,
   659060556, 883997877, 958139571, 1322822218, 1537002063,
   1747873779, 1955562222, 2024104815, 2227730452, 2361852424,
   2428436474, 2756734187, 3204031479, 3329325298]

def sha256H0 : List Nat :=
  [1779033703, 3144134277, 1013904242, 2773480762, 1359893119,
   2600822924, 528734635, 1541459225]

def toWords32 : List Nat → List Nat
  | a :: b :: c :: d :: rest =>
    (((a * 256 + b) * 256 + c) * 256 + d) :: toWords32 rest
  | _ => []

def scheduleStep (w : List Nat) : Nat :=
  let n := w.length
  w32 (ssig1 (w.getD (n - 2) 0) + w.getD (n - 7) 0
    + ssig0 (w.getD (n - 15) 0) + w.getD (n - 16) 0)

def buildSchedule : Nat → List Nat → List Nat
  | 0, w => w
  | k + 1, w => buildSchedule k (w ++ [scheduleStep w])

def sha256Round (st : List Nat) (kw : Nat × Nat) : List Nat :=
  match st with
  | [a, b, c, d, e, f, g, h] =>
    let t1 := w32 (h + bsig1 e + ch32 e f g + kw.1 + kw.2)
    let t2 := w32 (bsig0 a + maj32 a b c)
    [w32 (t1 + t2), a, b, c, w32 (d + t1), e, f, g]
  | st => st

def sha256Compress (hs : List Nat) (block : List Nat) : List Nat :=
  let w := buildSchedule 48 (toWords32 block)
  let st := (sha256K.zip w).foldl sha256Round hs
  (hs.zip st).map (fun p => w32 (p.1 + p.2))

def beBytes : Nat → Nat → List Nat
  | 0, _ => []
  | k + 1, n => beBytes k (n / 256) ++ [n % 256]

def toBlocksFuel : Nat → List Nat → List (List Nat)
  | 0, _ => []
  | _ + 1, [] => []
  | fuel + 1, c :: rest =>
    ((c :: rest).take 64) :: toBlocksFuel fuel ((c :: rest).drop 64)

def toBlocks (l : List Nat) : List (List Nat) := toBlocksFuel l.length l

def padMessage (msg : List Nat) : List Nat :=
  msg ++ 0x80 :: List.replicate ((119 - msg.length % 64) % 64) 0
    ++ beBytes 8 (msg.length * 8)

def sha256 (msg : List Nat) : List Nat :=
  let final := (toBlocks (padMessage msg)).foldl sha256Compress sha256H0
  (final.map (beBytes 4)).flatten

def hmacSha256 (key msg : List Nat) : List Nat :=
  let key := if 64 < key.length then sha256 key else key
  let key := key ++ List.replicate (64 - key.length) 0
  sha256 ((key.map (fun b => b ^^^ 0x5c))
    ++ sha256 ((key.map (fun b => b ^^^ 0x36)) ++ msg))

def hexDigits : List Char := "0123456789abcdef".data

def hexEncode (bytes : List Nat) : List Char :=
  (bytes.map (fun b => [hexDigits.getD (b / 16) '0', hexDigits.getD (b % 16) '0'])).flatten

def hexVal (c : Char) : Option Nat :=
  if '0' ≤ c ∧ c ≤ '9' then some (c.toNat - '0'.toNat)
  else if 'a' ≤ c ∧ c ≤ 'f' then some (c.toNat - 'a'.toNat + 10)
  else if 'A' ≤ c ∧ c ≤ 'F' then some (c.toNat - 'A'.toNat + 10)
  else none

/-- `hex::decode`: fails on odd length and on any non-hex character. -/
def hexDecode : List Char → Option (List Nat)
  | [] => some []
  | [_] => none
  | c1 :: c2 :: rest =>
    match hexVal c1, hexVal c2, hexDecode rest with
    | some hi, some lo, some r => some ((hi * 16 + lo) :: r)
    | _, _, _ => none

/-- `validate_signature` from src/webhooks/github/signing.rs. -/
def validate_signature (secret : List Nat) (signature : List Char)
    (data : List Nat) : Bool :=
  let mac := hmacSha256 secret data
  if signature.take 7 = "sha256=".data then
    match hexDecode (signature.drop 7) with
    | some bytes => bytes = mac
    | none => false
  else false

/-- Flipping bit `j` of byte `i` of a byte string. -/
def flipBit (bytes : List Nat) (i j : Nat) : List Nat :=
  bytes.set i ((bytes.getD i 0) ^^^ (1 <<< j))

/-! ## Claim theorems and supporting lemmas -/

theorem shorten_content_eq (s : String) :
    shorten_content s = shorten_content_length s 72 := rfl

/-- Every unicode scalar value occupies at least one UTF-8 byte. -/
theorem one_le_utf8Size (c : Char) : 1 ≤ c.utf8Size := by
  simp only [Char.utf8Size]
  repeat' split
  all_goals omega

theorem length_le_sum_utf8 (l : List Char) : l.length ≤ (l.map Char.utf8Size).sum := by
  induction l with
  | nil => simp
  | cons c rest ih =>
    have := one_le_utf8Size c
    simp only [List.map_cons, List.sum_cons, List.length_cons]
    omega

/-- C4.  Behaviour of the truncation helpers: pass-through is decided by the
UTF-8 byte length; on overflow the first `max_length` characters (all of them
when the string has fewer) are kept and one ellipsis is appended; truncation
is idempotent whenever the input has at least `max_length` characters or at
most `max_length` bytes. -/
theorem shorten_content_spec (s : String) (m : Nat) :
    (byteLen s ≤ m → shorten_content_length s m = s) ∧
    (m < byteLen s →
      shorten_content_length s m = String.mk (s.data.take m) ++ "…") ∧
    ((byteLen s ≤ m ∨ m ≤ s.data.length) →
      shorten_content_length (shorten_content_length s m) m =
        shorten_content_length s m) ∧
    (byteLen s ≤ 72 → shorten_content s = s) ∧
    (72 < byteLen s →
      shorten_content s = String.mk (s.data.take 72) ++ "…") := by
  have hpass : byteLen s ≤ m → shorten_content_length s m = s := by
    intro h
    simp [shorten_content_length, h]
  have hcut : m < byteLen s →
      shorten_content_length s m = String.mk (s.data.take m) ++ "…" := by
    intro h
    simp [shorten_content_length, Nat.not_le.mpr h]
  refine ⟨hpass, hcut, ?_, ?_, ?_⟩
  · rintro (h | h)
    · rw [hpass h]
      exact hpass h
    · by_cases hb : byteLen s ≤ m
      · rw [hpass hb]
        exact hpass hb
      · have hb' : m < byteLen s := Nat.not_le.mp hb
        rw [hcut hb']
        have hlen : (s.data.take m).length = m := by
          rw [List.length_take]
          omega
        have hdata : (String.mk (s.data.take m) ++ "…").data
            = s.data.take m ++ ['…'] := rfl
        have hbig : m < byteLen (String.mk (s.data.take m) ++ "…") := by
          have h1 : (s.data.take m).length
              ≤ ((s.data.take m).map Char.utf8Size).sum :=
            length_le_sum_utf8 _
          have h2 : byteLen (String.mk (s.data.take m) ++ "…")
              = ((s.data.take m).map Char.utf8Size).sum + 3 := by
            simp [byteLen, hdata]
            decide
          omega
        rw [shorten_content_length, if_neg (Nat.not_le.mpr hbig), hdata]
        have htake : (s.data.take m ++ ['…']).take m = s.data.take m := by
          have h3 := List.take_left (s.data.take m) ['…']
          rwa [hlen] at h3
        rw [htake]
  · intro h
    rw [shorten_content_eq]
    simp [shorten_content_length, h]
  · intro h
    rw [shorten_content_eq]
    simp [shorten_content_length, Nat.not_le.mpr h]

/-- C4 counterexample: a string of 37 two-byte characters has at most 72
characters yet is not returned unchanged, and truncating its truncation
appends a second ellipsis, so truncation is not idempotent. -/
theorem shorten_content_not_idempotent :
    (String.mk (List.replicate 37 'é')).data.length ≤ 72 ∧
    shorten_content (String.mk (List.replicate 37 'é'))
      ≠ String.mk (List.replicate 37 'é') ∧
    shorten_content (shorten_content (String.mk (List.replicate 37 'é')))
      ≠ shorten_content (String.mk (List.replicate 37 'é')) := by
  decide

/-- C4 witness: the truncation spec evaluated at concrete inputs. -/
theorem shorten_content_spec_witness :
    shorten_content_length "abc" 72 = "abc" ∧
    shorten_content_length "aaaaa" 3 = String.mk ("aaaaa".data.take 3) ++ "…" ∧
    shorten_content_length (shorten_content_length "aaaaa" 3) 3 =
      shorten_content_length "aaaaa" 3 := by
  refine ⟨(shorten_content_spec "abc" 72).1 (by decide),
    (shorten_content_spec "aaaaa" 3).2.1 (by decide),
    (shorten_content_spec "aaaaa" 3).2.2.1 (Or.inr (by decide))⟩

theorem unescape_escapeChar (c : Char) (t : List Char) :
    unescapeChars ((escapeChar c).data ++ t) = c :: unescapeChars t := by
  by_cases h1 : c = '>'
  · subst h1
    show unescapeChars ('&' :: 'g' :: 't' :: ';' :: t) = '>' :: unescapeChars t
    rw [unescapeChars]
    simp
  by_cases h2 : c = '<'
  · subst h2
    show unescapeChars ('&' :: 'l' :: 't' :: ';' :: t) = '<' :: unescapeChars t
    rw [unescapeChars]
    simp
  by_cases h3 : c = '&'
  · subst h3
    show unescapeChars ('&' :: 'a' :: 'm' :: 'p' :: ';' :: t) = '&' :: unescapeChars t
    rw [unescapeChars]
    simp
  by_cases h4 : c = '\''
  · subst h4
    show unescapeChars ('&' :: '#' :: '3' :: '9' :: ';' :: t) = '\'' :: unescapeChars t
    rw [unescapeChars]
    simp
  by_cases h5 : c = '"'
  · subst h5
    show unescapeChars ('&' :: 'q' :: 'u' :: 'o' :: 't' :: ';' :: t) = '"' :: unescapeChars t
    rw [unescapeChars]
    simp
  have he : (escapeChar c).data = [c] := by
    simp [escapeChar, h1, h2, h3, h4, h5]
  rw [he, List.singleton_append, unescapeChars, if_neg h3]

theorem unescape_escape_chars (l : List Char) :
    unescapeChars (escapeHtmlChars l) = l := by
  induction l with
  | nil => simp [escapeHtmlChars, unescapeChars]
  | cons c rest ih => rw [escapeHtmlChars, unescape_escapeChar, ih]

/-- C6.  `write_str` extends the plain accumulator with the written string
verbatim (in particular the string is a contiguous substring of the new
plain text), extends the html accumulator with the escaped copy, and
html-unescaping that copy reconstructs the string exactly. -/
theorem write_str_spec (b : MessageBuilder) (s : String) :
    (b.write_str s).plain = b.plain ++ s ∧
    (∃ l r, ((b.write_str s).plain).data = l ++ s.data ++ r) ∧
    (b.write_str s).html = b.html ++ escapeHtml s ∧
    unescapeHtml (escapeHtml s) = s := by
  refine ⟨rfl, ⟨b.plain.data, [], by simp [MessageBuilder.write_str]⟩, rfl, ?_⟩
  show String.mk (unescapeChars (escapeHtmlChars s.data)) = s
  rw [unescape_escape_chars]

/-- C5 (amended).  `build` appends the recorded primary url, if any, exactly
once to the plain accumulator (separator glyph followed by the url), leaves
the html accumulator unchanged, appends nothing when no primary link was
recorded, and a repeated `main_link` overwrites the recorded url so only the
last one is appended. -/
theorem build_spec (b : MessageBuilder) :
    (∀ u, b.url = some u →
      b.build = ⟨b.plain ++ " " ++ SEPARATOR ++ " " ++ u, b.html⟩) ∧
    (b.url = none → b.build = ⟨b.plain, b.html⟩) ∧
    (∀ t u, (b.main_link t u).url = some u) := by
  refine ⟨?_, ?_, fun t u => rfl⟩
  · intro u h
    simp [MessageBuilder.build, h]
  · intro h
    simp [MessageBuilder.build, h]

/-- C5 counterexample: `build` does not require (or check) an empty style
stack — on a builder with an open bold style it still returns a message,
with the unclosed tag left dangling in the html. -/
theorem build_ignores_style_stack :
    MessageBuilder.new.bold.style_stack ≠ [] ∧
    MessageBuilder.new.bold.build = ⟨"", "<b>"⟩ := by
  exact ⟨by decide, by decide⟩

/-- C5 witness: `build_spec` evaluated on concrete builders. -/
theorem build_spec_witness :
    (MessageBuilder.new.main_link "t" "https://example.org").build =
      ⟨"t ⋅ https://example.org", "<a href=\"https://example.org\">t</a>"⟩ ∧
    MessageBuilder.new.build = ⟨"", ""⟩ := by
  refine ⟨((build_spec _).1 "https://example.org" rfl).trans (by decide),
    (build_spec _).2.1 rfl⟩

theorem find?_eq_of_first {α} (l : List α) (p : α → Bool) (j : Nat) (d : α)
    (hj : l.get? j = some d) (hd : p d = true)
    (hk : ∀ k, k < j → ∀ dk, l.get? k = some dk → p dk = false) :
    l.find? p = some d := by
  induction l generalizing j with
  | nil => simp at hj
  | cons a rest ih =>
    cases j with
    | zero =>
      simp only [List.get?] at hj
      cases hj
      exact List.find?_cons_of_pos _ hd
    | succ j =>
      have ha : p a = false := hk 0 (Nat.succ_pos j) a rfl
      rw [List.find?_cons_of_neg _ (by simp [ha])]
      exact ih j hj (fun k hkj dk hget => hk (k + 1) (Nat.succ_lt_succ hkj) dk hget)

/-- C7.  Destination resolution: the first destination (in configured
order) whose regex matches the repo determines the room; when none matches,
or when no repo key is supplied, the default room is used; `default_room`
returns the id of a default-flagged room and errors exactly when none is
flagged; `find_room_for` errors exactly when the matched destination names
an unknown room or, in the no-match case, when no room is flagged default. -/
theorem find_room_for_spec (cfg : ProloloConfig) (repo : String) :
    (∀ j d, cfg.destinations.get? j = some d → d.regex repo = true →
      (∀ k, k < j → ∀ dk, cfg.destinations.get? k = some dk →
        dk.regex repo = false) →
      cfg.find_room_for repo =
        match cfg.rooms_get d.room with
        | some room => .ok room.id
        | none => .error ("destination points to unknown room " ++ d.room)) ∧
    ((∀ d ∈ cfg.destinations, d.regex repo = false) →
      cfg.find_room_for repo = cfg.default_room) ∧
    (cfg.resolve_room none = cfg.default_room) ∧
    (∀ r, cfg.default_room = .ok r →
      ∃ room ∈ cfg.matrix_rooms.map Prod.snd, room.default = true ∧ room.id = r) ∧
    ((∀ room ∈ cfg.matrix_rooms.map Prod.snd, room.default = false) →
      cfg.default_room = .error "no default room provided!") ∧
    ((∃ e, cfg.find_room_for repo = .error e) ↔
      (∃ d, cfg.destinations.find? (fun dest => dest.regex repo) = some d ∧
        cfg.rooms_get d.room = none) ∨
      (cfg.destinations.find? (fun dest => dest.regex repo) = none ∧
        ∀ room ∈ cfg.matrix_rooms.map Prod.snd, room.default = false)) := by
  have hnone : (∀ d ∈ cfg.destinations, d.regex repo = false) →
      cfg.destinations.find? (fun dest => dest.regex repo) = none := by
    intro h
    rw [List.find?_eq_none]
    intro d hd
    simp [h d hd]
  have hdefnone : (∀ room ∈ cfg.matrix_rooms.map Prod.snd, room.default = false) →
      (cfg.matrix_rooms.map Prod.snd).find? (fun room => room.default) = none := by
    intro h
    rw [List.find?_eq_none]
    intro r hr
    simp [h r hr]
  refine ⟨?_, ?_, rfl, ?_, ?_, ?_⟩
  · intro j d hj hd hk
    rw [ProloloConfig.find_room_for,
      find?_eq_of_first cfg.destinations _ j d hj hd hk]
  · intro h
    rw [ProloloConfig.find_room_for, hnone h]
  · intro r hr
    rw [ProloloConfig.default_room] at hr
    rcases hfind : (cfg.matrix_rooms.map Prod.snd).find? (fun room => room.default)
      with _ | room
    · rw [hfind] at hr
      exact absurd hr (by simp)
    · rw [hfind] at hr
      refine ⟨room, List.mem_of_find?_eq_some hfind, ?_, ?_⟩
      · simpa using List.find?_some hfind
      · simpa using hr
  · intro h
    rw [ProloloConfig.default_room, hdefnone h]
  · constructor
    · rintro ⟨e, he⟩
      rw [ProloloConfig.find_room_for] at he
      rcases hfind : cfg.destinations.find? (fun dest => dest.regex repo)
        with _ | d
      · rw [hfind] at he
        dsimp only at he
        refine Or.inr ⟨hfind, ?_⟩
        intro room hroom
        by_contra hdef
        rw [ProloloConfig.default_room] at he
        rcases hdeffind : (cfg.matrix_rooms.map Prod.snd).find?
          (fun room => room.default) with _ | r
        · rw [List.find?_eq_none] at hdeffind
          exact hdeffind room hroom (by simp [Bool.not_eq_false] at hdef ⊢; exact hdef)
        · rw [hdeffind] at he
          exact absurd he (by simp)
      · rw [hfind] at he
        dsimp only at he
        rcases hget : cfg.rooms_get d.room with _ | room
        · exact Or.inl ⟨d, hfind, hget⟩
        · rw [hget] at he
          exact absurd he (by simp)
    · rintro (⟨d, hfind, hget⟩ | ⟨hfind, hdef⟩)
      · rw [ProloloConfig.find_room_for, hfind]
        dsimp only
        rw [hget]
        exact ⟨_, rfl⟩
      · rw [ProloloConfig.find_room_for, hfind, ProloloConfig.default_room,
          hdefnone hdef]
        exact ⟨_, rfl⟩

/-- C7 witness: resolution on the concrete configuration — first match,
fallback to the default room, and the unknown-room error. -/
theorem find_room_for_spec_witness :
    wcfg.find_room_for "acme/widgets" = .ok "!kiosk" ∧
    wcfg.find_room_for "zzz" = .ok "!main" ∧
    (∃ e, wcfg.find_room_for "acme/gadgets" = .error e) := by
  refine ⟨?_, ?_, ?_⟩
  · have h := (find_room_for_spec wcfg "acme/widgets").1 0
      ⟨"kiosk", fun repo => repo = "acme/widgets"⟩ rfl (by decide)
      (fun k hk dk hg => absurd hk (Nat.not_lt_zero k))
    exact h.trans rfl
  · have h := (find_room_for_spec wcfg "zzz").2.1 (by decide)
    exact h.trans rfl
  · exact (find_room_for_spec wcfg "acme/gadgets").2.2.2.2.2.mpr
      (Or.inl ⟨⟨"missing", fun repo => repo = "acme/gadgets"⟩, rfl, rfl⟩)

/-- C1: evaluation of the handler at the failing inputs.  An invitation to
a room listed in `authorized_rooms` is declined with zero accept attempts,
while an invitation to a room outside the list is accepted — the inverse of
the claimed (and intended) behaviour. -/
theorem autojoin_inverted_check :
    autojoin_authorized_rooms "@prololo:example.org" "@prololo:example.org"
      (.invited "!auth") ["!auth"] (fun _ => true) = .declined "!auth" ∧
    autojoin_authorized_rooms "@prololo:example.org" "@prololo:example.org"
      (.invited "!other") ["!auth"] (fun _ => true) = .joined "!other" 1 [] := by
  have hloop : accept_retry (fun _ => true) = ⟨true, 1, []⟩ := by
    rw [accept_retry, accept_retry_loop]
    simp
  constructor
  · rfl
  · rw [autojoin_authorized_rooms]
    simp [hloop]

theorem range_one_eq : List.range 1 = [0] := rfl

theorem accept_retry_loop_invariant (accept : Nat → Bool) :
    ∀ N attempt delay (h : 0 < delay), 3601 - delay ≤ N →
      (accept_retry_loop accept attempt delay h).sleeps =
        (List.range (accept_retry_loop accept attempt delay h).sleeps.length).map
          (fun i => delay * 2 ^ i) ∧
      ((accept_retry_loop accept attempt delay h).joinedOk = true →
        (accept_retry_loop accept attempt delay h).attempts =
          (accept_retry_loop accept attempt delay h).sleeps.length + 1) ∧
      ((accept_retry_loop accept attempt delay h).joinedOk = false →
        (accept_retry_loop accept attempt delay h).attempts =
          (accept_retry_loop accept attempt delay h).sleeps.length) := by
  intro N
  induction N with
  | zero =>
    intro attempt delay h hN
    rw [accept_retry_loop]
    rcases ha : accept attempt with _ | _
    · simp only [ha, Bool.false_eq_true, if_false]
      have h2 : 3600 < delay * 2 := by omega
      rw [dif_pos h2]
      exact ⟨by simp [range_one_eq], by simp, by simp⟩
    · simp [ha]
  | succ N ih =>
    intro attempt delay h hN
    rw [accept_retry_loop]
    rcases ha : accept attempt with _ | _
    · simp only [ha, Bool.false_eq_true, if_false]
      by_cases h2 : 3600 < delay * 2
      · rw [dif_pos h2]
        exact ⟨by simp [range_one_eq], by simp, by simp⟩
      · rw [dif_neg h2]
        have hrec := ih (attempt + 1) (delay * 2) (by omega) (by omega)
        have hfun : (fun i => delay * 2 * 2 ^ i)
            = ((fun i => delay * 2 ^ i) ∘ Nat.succ) := by
          funext i
          simp [Function.comp, Nat.pow_succ]
          ring
        dsimp only
        refine ⟨?_, ?_, ?_⟩
        · rw [List.length_cons, List.range_succ_eq_map, List.map_cons,
            List.map_map, hrec.1, hfun]
          simp
        · intro hj
          have := hrec.2.1 hj
          simp only [List.length_cons]
          omega
        · intro hj
          have := hrec.2.2 hj
          simp only [List.length_cons]
          omega
    · simp [ha]

/-- C8 (amended).  Backoff behaviour of the accept retry loop — entered,
due to the inverted check recorded in C1, for invited rooms *not* contained
in the configured list: the sleeps double starting from 2 seconds; when
every accept attempt fails the handler sleeps 2,4,…,2048 seconds, reports
an error and abandons the room once the cumulative wait first exceeds the
3600-second ceiling (4094 s total, only 2046 s before the final sleep),
making 11 accept attempts and none after abandoning. -/
theorem autojoin_backoff_spec (user_id room_id : String)
    (authorized_rooms : List String) (accept : Nat → Bool)
    (hroom : authorized_rooms.contains room_id = false) :
    (accept_retry accept).sleeps =
      (List.range (accept_retry accept).sleeps.length).map (fun i => 2 * 2 ^ i) ∧
    ((∀ n, accept n = false) →
      autojoin_authorized_rooms user_id user_id (.invited room_id)
          authorized_rooms accept =
        .abandoned room_id 11 [2, 4, 8, 16, 32, 64, 128, 256, 512, 1024, 2048] ∧
      (([2, 4, 8, 16, 32, 64, 128, 256, 512, 1024, 2048] : List Nat).sum = 4094 ∧
        3600 < (([2, 4, 8, 16, 32, 64, 128, 256, 512, 1024, 2048] : List Nat)).sum) ∧
      ([2, 4, 8, 16, 32, 64, 128, 256, 512, 1024, 2048] : List Nat).dropLast.sum ≤ 3600) := by
  constructor
  · exact (accept_retry_loop_invariant accept 3599 0 2 (by omega) (by omega)).1
  · intro hfail
    have hloop : accept_retry accept
        = ⟨false, 11, [2, 4, 8, 16, 32, 64, 128, 256, 512, 1024, 2048]⟩ := by
      rw [accept_retry]
      simp [accept_retry_loop, hfail]
    refine ⟨?_, ⟨by decide, by decide⟩, by decide⟩
    rw [autojoin_authorized_rooms]
    have hmem : room_id ∉ authorized_rooms := by
      simpa using hroom
    simp [hroom, hloop, hmem]

/-- C8 counterexample: for an invitation to a room that *is* in the
configured list, with acceptance always failing, the handler performs no
retry at all — it declines immediately instead of backing off and
abandoning as the claim predicts. -/
theorem autojoin_authorized_declines_instead_of_retrying :
    autojoin_authorized_rooms "@prololo:example.org" "@prololo:example.org"
      (.invited "!auth") ["!auth"] (fun _ => false) = .declined "!auth" ∧
    AutojoinOutcome.declined "!auth" ≠
      .abandoned "!auth" 11 [2, 4, 8, 16, 32, 64, 128, 256, 512, 1024, 2048] := by
  exact ⟨rfl, by decide⟩

/-- C8 witness: the backoff spec applied to a concrete unauthorized room
with always-failing acceptance. -/
theorem autojoin_backoff_spec_witness :
    autojoin_authorized_rooms "@prololo:example.org" "@prololo:example.org"
      (.invited "!room") [] (fun _ => false) =
      .abandoned "!room" 11 [2, 4, 8, 16, 32, 64, 128, 256, 512, 1024, 2048] :=
  ((autojoin_backoff_spec "@prololo:example.org" "!room" [] (fun _ => false)
    (by decide)).2 (fun n => rfl)).1

/-- C2 counterexample: a signed request whose `X-GitHub-Event` header holds
the unrecognized value "deployment" is answered with BadRequest — not with
a success status — and nothing is enqueued. -/
theorem github_webhook_unknown_counterexample :
    github_webhook "deployment" (fun _ => (none : Option Unit))
      = (Status.badRequest, none) ∧
    Status.badRequest ≠ Status.ok := ⟨rfl, by decide⟩

/-- C2 (amended).  For every header value outside the recognized set the
route answers BadRequest (HTTP 400) and enqueues nothing on the delivery
channel. -/
theorem github_webhook_unrecognized {Ev : Type} (s : String)
    (deser : GitHubEventType → Option Ev)
    (h : s ∉ recognized_event_names) :
    github_webhook s deser = (Status.badRequest, (none : Option Ev)) := by
  simp only [recognized_event_names, List.mem_cons, List.not_mem_nil, or_false,
    not_or] at h
  obtain ⟨h1, h2, h3, h4, h5, h6, h7, h8, h9, h10, h11, h12, h13⟩ := h
  rw [github_webhook, parse_event_type]
  simp only [h1, h2, h3, h4, h5, h6, h7, h8, h9, h10, h11, h12, h13, if_false]
  rfl

/-- C2 witness: the amended claim applied to the concrete header value
"deployment". -/
theorem github_webhook_unrecognized_witness :
    github_webhook "deployment" (fun _ => (none : Option Unit))
      = (Status.badRequest, none) :=
  github_webhook_unrecognized "deployment" (fun _ => none) (by decide)

/-- C9.  Verbosity suppressions: an issues event whose action is "labeled"
or "unlabeled", and a review-comment event whose comment belongs to a
pending review, produce no message and no error. -/
theorem verbosity_suppression (ev : IssuesEvent)
    (ev2 : PullRequestReviewCommentEvent) :
    (ev.action = "labeled" ∨ ev.action = "unlabeled" →
      handle_issues ev = .ok none) ∧
    (ev2.comment.pull_request_review_id.isSome = true →
      handle_pull_request_review_comment ev2 = .ok none) := by
  constructor
  · intro h
    obtain ⟨repo, sender, issue, changes, assignee, action⟩ := ev
    simp only at h
    rcases h with h | h <;> subst h <;> rfl
  · intro h
    obtain ⟨repo, sender, pr, action, comment⟩ := ev2
    obtain ⟨curl, cbody, ccommit, cprid, cpath, cpos⟩ := comment
    simp only at h
    cases cprid with
    | none => simp at h
    | some v => rfl

/-- C10.  A membership event for a team whose privacy is "secret" produces
no message, whatever the action. -/
theorem handle_membership_secret_team (ev : MembershipEvent)
    (h : ev.team.privacy = "secret") : handle_membership ev = .ok none := by
  obtain ⟨action, member, team, sender⟩ := ev
  obtain ⟨tname, tid, tdesc, tpriv, tperm, turl⟩ := team
  simp only at h
  subst h
  rfl

/-- C9 witness: the suppressions evaluated on concrete events. -/
theorem verbosity_suppression_witness :
    handle_issues
      ⟨wRepo, wUser, ⟨1, "https://example.org/1", "t", none, none⟩,
        none, none, "labeled"⟩ = .ok none ∧
    handle_pull_request_review_comment
      ⟨wRepo, wUser,
        ⟨2, "https://example.org/2", "t", wUser, [], ⟨"main"⟩, ⟨"dev"⟩, none⟩,
        "created",
        ⟨"https://example.org/c", "body", none, some 7, none, none⟩⟩
      = .ok none := by
  constructor
  · exact (verbosity_suppression
      ⟨wRepo, wUser, ⟨1, "https://example.org/1", "t", none, none⟩,
        none, none, "labeled"⟩
      ⟨wRepo, wUser,
        ⟨2, "https://example.org/2", "t", wUser, [], ⟨"main"⟩, ⟨"dev"⟩, none⟩,
        "created",
        ⟨"https://example.org/c", "body", none, some 7, none, none⟩⟩).1
      (Or.inl rfl)
  · exact (verbosity_suppression
      ⟨wRepo, wUser, ⟨1, "https://example.org/1", "t", none, none⟩,
        none, none, "labeled"⟩
      ⟨wRepo, wUser,
        ⟨2, "https://example.org/2", "t", wUser, [], ⟨"main"⟩, ⟨"dev"⟩, none⟩,
        "created",
        ⟨"https://example.org/c", "body", none, some 7, none, none⟩⟩).2 rfl

/-- C10 witness: a secret team with the "added" action produces no message. -/
theorem handle_membership_secret_team_witness :
    handle_membership
      ⟨"added", wUser,
        ⟨"crew", 3, "", "secret", "pull", "https://example.org/t"⟩, wUser⟩
      = .ok none :=
  handle_membership_secret_team
    ⟨"added", wUser,
      ⟨"crew", 3, "", "secret", "pull", "https://example.org/t"⟩, wUser⟩ rfl

theorem beBytes_length (k n : Nat) : (beBytes k n).length = k := by
  induction k generalizing n with
  | zero => rfl
  | succ k ih => simp [beBytes, ih]

theorem beBytes_lt (k n : Nat) : ∀ b ∈ beBytes k n, b < 256 := by
  induction k generalizing n with
  | zero => simp [beBytes]
  | succ k ih =>
    intro b hb
    rw [beBytes, List.mem_append] at hb
    rcases hb with hb | hb
    · exact ih _ b hb
    · simp only [List.mem_singleton] at hb
      subst hb
      omega

theorem sha256Round_length (st : List Nat) (kw : Nat × Nat) :
    (sha256Round st kw).length = st.length := by
  rcases st with _ | ⟨a, _ | ⟨b, _ | ⟨c, _ | ⟨d, _ | ⟨e, _ | ⟨f, _ | ⟨g,
    _ | ⟨h, _ | ⟨i, t⟩⟩⟩⟩⟩⟩⟩⟩⟩ <;> rfl

theorem foldl_round_length (l : List (Nat × Nat)) (hs : List Nat) :
    (l.foldl sha256Round hs).length = hs.length := by
  induction l generalizing hs with
  | nil => rfl
  | cons kw rest ih =>
    rw [List.foldl_cons, ih, sha256Round_length]

theorem sum_map_const (l : List Nat) (c : Nat) :
    (l.map (fun _ => c)).sum = l.length * c := by
  induction l with
  | nil => simp
  | cons x rest ih => simp [ih, Nat.succ_mul, Nat.add_comm]

theorem sha256Compress_length (hs block : List Nat) (h : hs.length = 8) :
    (sha256Compress hs block).length = 8 := by
  rw [sha256Compress]
  simp [List.length_zip, foldl_round_length, h]

theorem sha256_length (msg : List Nat) : (sha256 msg).length = 32 := by
  rw [sha256]
  have hfold : ∀ (blocks : List (List Nat)) (hs : List Nat), hs.length = 8 →
      (blocks.foldl sha256Compress hs).length = 8 := by
    intro blocks
    induction blocks with
    | nil => intro hs h; exact h
    | cons b rest ih =>
      intro hs h
      rw [List.foldl_cons]
      exact ih _ (sha256Compress_length hs b h)
  have h8 : ((toBlocks (padMessage msg)).foldl sha256Compress sha256H0).length = 8 :=
    hfold _ _ rfl
  rw [List.length_flatten, List.map_map]
  have hmap : ((toBlocks (padMessage msg)).foldl sha256Compress sha256H0).map
      (List.length ∘ beBytes 4)
      = ((toBlocks (padMessage msg)).foldl sha256Compress sha256H0).map
        (fun _ => 4) := by
    apply List.map_congr_left
    intro a _
    exact beBytes_length 4 a
  rw [hmap, sum_map_const, h8]

theorem sha256_lt (msg : List Nat) : ∀ b ∈ sha256 msg, b < 256 := by
  intro b hb
  rw [sha256, List.mem_flatten] at hb
  obtain ⟨bl, hbl, hmem⟩ := hb
  rw [List.mem_map] at hbl
  obtain ⟨w, _, hw⟩ := hbl
  subst hw
  exact beBytes_lt 4 w b hmem

theorem hmacSha256_length (key msg : List Nat) :
    (hmacSha256 key msg).length = 32 := sha256_length _

theorem hmacSha256_lt (key msg : List Nat) :
    ∀ b ∈ hmacSha256 key msg, b < 256 := sha256_lt _

theorem hexVal_encode (v : Nat) (h : v < 16) :
    hexVal (hexDigits.getD v '0') = some v := by
  have hfin : ∀ w : Fin 16, hexVal (hexDigits.getD w.1 '0') = some w.1 := by
    decide
  exact hfin ⟨v, h⟩

theorem hexDecode_encode (bytes : List Nat) (h : ∀ b ∈ bytes, b < 256) :
    hexDecode (hexEncode bytes) = some bytes := by
  induction bytes with
  | nil => rfl
  | cons b rest ih =>
    have hb : b < 256 := h b (List.mem_cons_self b rest)
    have hrest := ih (fun x hx => h x (List.mem_cons_of_mem b hx))
    have h1 : b / 16 < 16 := by omega
    have h2 : b % 16 < 16 := by omega
    have e1 := hexVal_encode _ h1
    have e2 := hexVal_encode _ h2
    show hexDecode (hexDigits.getD (b / 16) '0' :: hexDigits.getD (b % 16) '0'
      :: hexEncode rest) = some (b :: rest)
    simp only [hexDecode, e1, e2, hrest]
    have hbb : b / 16 * 16 + b % 16 = b := by omega
    rw [hbb]

theorem getD_set_self (l : List Nat) (i v : Nat) (h : i < l.length) :
    (l.set i v).getD i 0 = v := by
  induction l generalizing i with
  | nil => simp at h
  | cons a rest ih =>
    cases i with
    | zero => rfl
    | succ i => exact ih i (by simpa using h)

theorem getD_self_mem (l : List Nat) (i : Nat) (h : i < l.length) :
    l.getD i 0 ∈ l := by
  induction l generalizing i with
  | nil => simp at h
  | cons a rest ih =>
    cases i with
    | zero => exact List.mem_cons_self a rest
    | succ i => exact List.mem_cons_of_mem a (ih i (by simpa using h))

theorem xor_pow_ne (x j : Nat) : x ^^^ (1 <<< j) ≠ x := by
  intro hx
  have hp : 1 <<< j = 0 := by
    have h1 : x ^^^ (x ^^^ (1 <<< j)) = x ^^^ x := congrArg (x ^^^ ·) hx
    rwa [← Nat.xor_assoc, Nat.xor_self, Nat.zero_xor] at h1
  rw [Nat.one_shiftLeft] at hp
  have := Nat.two_pow_pos j
  omega

theorem xor_lt_256 (x j : Nat) (hx : x < 256) (hj : j < 8) :
    x ^^^ (1 <<< j) < 256 := by
  rw [Nat.one_shiftLeft]
  have h2 : (2 : Nat) ^ j ≤ 2 ^ 7 := Nat.pow_le_pow_right (by omega) (by omega)
  have h7 : (2 : Nat) ^ 7 = 128 := by norm_num
  have h8 : (2 : Nat) ^ 8 = 256 := by norm_num
  have h3 : x ^^^ (2 : Nat) ^ j < 2 ^ 8 :=
    Nat.xor_lt_two_pow (by omega) (by omega)
  omega

/-- C3.  `validate_signature` accepts exactly the declared signature
"sha256=" ++ hex(HMAC-SHA-256(secret, body)): it accepts the correct tag,
rejects a missing prefix, rejects a non-hex remainder, rejects any decoded
bytes different from the computed tag — in particular any single-bit flip
of the declared MAC — and rejects a signature computed over any body whose
tag differs (flipping a body bit changes acceptance exactly when it changes
the tag, which is the collision-freedom HMAC is trusted for). -/
theorem validate_signature_spec (secret data : List Nat) (sig : List Char) :
    validate_signature secret
      ("sha256=".data ++ hexEncode (hmacSha256 secret data)) data = true ∧
    (sig.take 7 ≠ "sha256=".data → validate_signature secret sig data = false) ∧
    (hexDecode (sig.drop 7) = none → validate_signature secret sig data = false) ∧
    (∀ bytes, hexDecode (sig.drop 7) = some bytes →
      bytes ≠ hmacSha256 secret data →
      validate_signature secret sig data = false) ∧
    (∀ i j, i < 32 → j < 8 →
      validate_signature secret
        ("sha256=".data ++ hexEncode (flipBit (hmacSha256 secret data) i j))
        data = false) ∧
    (∀ data2, hmacSha256 secret data2 ≠ hmacSha256 secret data →
      validate_signature secret
        ("sha256=".data ++ hexEncode (hmacSha256 secret data2)) data = false) := by
  have hmaclt := hmacSha256_lt secret data
  have hmaclen := hmacSha256_length secret data
  have htake : ∀ x : List Char, ("sha256=".data ++ x).take 7 = "sha256=".data := by
    intro x
    rw [show (7 : Nat) = ("sha256=".data).length from rfl]
    exact List.take_left _ _
  have hdrop : ∀ x : List Char, ("sha256=".data ++ x).drop 7 = x := by
    intro x
    rw [show (7 : Nat) = ("sha256=".data).length from rfl]
    exact List.drop_left _ _
  refine ⟨?_, ?_, ?_, ?_, ?_, ?_⟩
  · rw [validate_signature]
    dsimp only
    rw [if_pos (htake _), hdrop, hexDecode_encode _ hmaclt]
    simp
  · intro h
    rw [validate_signature]
    dsimp only
    rw [if_neg h]
  · intro h
    rw [validate_signature]
    dsimp only
    by_cases hc : sig.take 7 = "sha256=".data
    · rw [if_pos hc, h]
    · rw [if_neg hc]
  · intro bytes hdec hne
    rw [validate_signature]
    dsimp only
    by_cases hc : sig.take 7 = "sha256=".data
    · rw [if_pos hc, hdec]
      simp [hne]
    · rw [if_neg hc]
  · intro i j hi hj
    have hilen : i < (hmacSha256 secret data).length := by omega
    have hflt : ∀ b ∈ flipBit (hmacSha256 secret data) i j, b < 256 := by
      intro b hb
      rcases List.mem_or_eq_of_mem_set hb with hb | hb
      · exact hmaclt b hb
      · subst hb
        exact xor_lt_256 _ j (hmaclt _ (getD_self_mem _ i hilen)) hj
    have hne : flipBit (hmacSha256 secret data) i j ≠ hmacSha256 secret data := by
      rw [flipBit]
      intro h
      apply xor_pow_ne ((hmacSha256 secret data).getD i 0) j
      have hset := getD_set_self (hmacSha256 secret data) i
        ((hmacSha256 secret data).getD i 0 ^^^ (1 <<< j)) hilen
      rw [h] at hset
      exact hset.symm
    rw [validate_signature]
    dsimp only
    rw [if_pos (htake _), hdrop, hexDecode_encode _ hflt]
    simp [hne]
  · intro data2 hne
    rw [validate_signature]
    dsimp only
    rw [if_pos (htake _), hdrop, hexDecode_encode _ (hmacSha256_lt secret data2)]
    simp [hne]

set_option maxRecDepth 100000 in
/-- C3 witness: the signature spec applied to the concrete secret "key"
and body "data" (as bytes) — correct tag accepted; wrong prefix, non-hex
remainder, wrong bytes, a MAC bit flip and a body byte change (whose tags
differ, checked by computation) all rejected. -/
theorem validate_signature_spec_witness :
    validate_signature [107, 101, 121]
      ("sha256=".data ++ hexEncode (hmacSha256 [107, 101, 121] [100, 97, 116, 97]))
      [100, 97, 116, 97] = true ∧
    validate_signature [107, 101, 121] "deadbeef".data [100, 97, 116, 97] = false ∧
    validate_signature [107, 101, 121] "sha256=zz".data [100, 97, 116, 97] = false ∧
    validate_signature [107, 101, 121] "sha256=00".data [100, 97, 116, 97] = false ∧
    validate_signature [107, 101, 121]
      ("sha256=".data
        ++ hexEncode (flipBit (hmacSha256 [107, 101, 121] [100, 97, 116, 97]) 0 0))
      [100, 97, 116, 97] = false ∧
    validate_signature [107, 101, 121]
      ("sha256=".data ++ hexEncode (hmacSha256 [107, 101, 121] [100, 97, 116, 98]))
      [100, 97, 116, 97] = false := by
  refine ⟨(validate_signature_spec [107, 101, 121] [100, 97, 116, 97] []).1,
    (validate_signature_spec [107, 101, 121] [100, 97, 116, 97]
      "deadbeef".data).2.1 (by decide),
    (validate_signature_spec [107, 101, 121] [100, 97, 116, 97]
      "sha256=zz".data).2.2.1 (by decide),
    (validate_signature_spec [107, 101, 121] [100, 97, 116, 97]
      "sha256=00".data).2.2.2.1 [0] (by decide) ?_,
    (validate_signature_spec [107, 101, 121] [100, 97, 116, 97]
      []).2.2.2.2.1 0 0 (by omega) (by omega),
    (validate_signature_spec [107, 101, 121] [100, 97, 116, 97]
      []).2.2.2.2.2 [100, 97, 116, 98] (by decide)⟩
  intro h
  have hl := hmacSha256_length [107, 101, 121] [100, 97, 116, 97]
  rw [← h] at hl
  simp at hl

end Prololo

